import Mathlib

/-!
Verification of the thermite virtual-memory subsystem (`src/memory/mod.rs`,
`src/memory/paging/mod.rs`).

The page-table hierarchy is embedded as an explicit arena of
physical-frame-indexed tables (`Mem : frame number → slot → raw 64-bit
entry`), exactly as the design notes of the specification prescribe for the
recursive self-mapping: the recursive-mapping algorithm is ordinary
arithmetic over that arena.  Machine `usize` arithmetic is `Nat` with an
explicit `% 2^64` where multiplication may overflow.  Rust panics
(`assert!`/`expect`) are embedded as `Option` with `none` for the halt.

The files `mapper.rs`, `entry.rs`, `table.rs` and `temporary_page.rs` of
this repository are referenced by the shown code but are not part of the
given sources; their operations are modelled from the specification text
(each such definition carries a doc comment starting `Modelled from the
spec:`).  Everything else is translated directly from the Rust source.
-/

namespace Thermite

/-- `PAGE_SIZE` from `src/memory/mod.rs`. -/
def PAGE_SIZE : Nat := 4096

/-- `ENTRY_COUNT` from `src/memory/paging/mod.rs`. -/
def ENTRY_COUNT : Nat := 512

/-- The `usize` modulus (`2 ^ 64`). -/
def USIZE : Nat := 0x10000000000000000

/-- Entry flag `PRESENT` (bit 0). -/
def PRESENT : Nat := 1

/-- Entry flag `WRITABLE` (bit 1). -/
def WRITABLE : Nat := 2

/-- `Frame` from `src/memory/mod.rs`: a physical page handle. -/
structure Frame where
  number : Nat
deriving DecidableEq

/-- `Frame::containing_address`: `address / PAGE_SIZE`. -/
def Frame.containing_address (address : Nat) : Frame :=
  ⟨address / PAGE_SIZE⟩

/-- `Frame::start_address`: `number * PAGE_SIZE` in `usize` arithmetic. -/
def Frame.start_address (f : Frame) : Nat :=
  f.number * PAGE_SIZE % USIZE

/-- The strict order on `Frame` derived by `#[derive(PartialOrd, Ord)]`:
lexicographic on the single field `number`, i.e. comparison of numbers. -/
def Frame.lt (x y : Frame) : Prop :=
  x.number < y.number

instance (x y : Frame) : Decidable (Frame.lt x y) :=
  Nat.decLt x.number y.number

/-- `Page` from `src/memory/paging/mod.rs`: a virtual page handle. -/
structure Page where
  number : Nat
deriving DecidableEq

/-- `Page::start_address`: `number * PAGE_SIZE` in `usize` arithmetic. -/
def Page.start_address (p : Page) : Nat :=
  p.number * PAGE_SIZE % USIZE

/-- `Page::containing_address` with its canonical-address assertion: the
assert halts (`none`) unless `address < 0x0000_8000_0000_0000` or
`address >= 0xffff_8000_0000_0000`. -/
def Page.containing_address (address : Nat) : Option Page :=
  if address < 0x0000800000000000 ∨ 0xffff800000000000 ≤ address then
    some ⟨address / PAGE_SIZE⟩
  else
    none

/-- `Page::p4_index`: `(number >> 27) & 0o777`. -/
def Page.p4_index (p : Page) : Nat :=
  (p.number >>> 27) &&& 0o777

/-- `Page::p3_index`: `(number >> 18) & 0o777`. -/
def Page.p3_index (p : Page) : Nat :=
  (p.number >>> 18) &&& 0o777

/-- `Page::p2_index`: `(number >> 9) & 0o777`. -/
def Page.p2_index (p : Page) : Nat :=
  (p.number >>> 9) &&& 0o777

/-- `Page::p1_index`: `(number >> 0) & 0o777`. -/
def Page.p1_index (p : Page) : Nat :=
  (p.number >>> 0) &&& 0o777

/-- Physical memory as an arena of 512-entry tables: frame number → slot
index → raw 64-bit entry value.  Only slots `0..511` are meaningful. -/
abbrev Mem : Type := Nat → Nat → Nat

/-- Write one table slot: `table[slot] = value` in the table stored in
frame `tf`. -/
def memWrite (m : Mem) (tf slot v : Nat) : Mem :=
  fun g t => if g = tf then (if t = slot then v else m g t) else m g t

/-- `Table::zero`: clear every slot of the table stored in frame `tf`. -/
def memZeroTable (m : Mem) (tf : Nat) : Mem :=
  fun g t => if g = tf then 0 else m g t

/-- Modelled from the spec: `Entry::set(frame, flags)` from the absent
`entry.rs` — one 64-bit slot is the physical frame's start address packed
with the flag bits. -/
def entrySet (f : Frame) (flags : Nat) : Nat :=
  f.start_address ||| flags

/-- Modelled from the spec: `Entry::pointed_frame` from the absent
`entry.rs` — reading a frame from an entry is guarded by the `PRESENT`
bit (bit 0); the packed physical frame number occupies bits 12..51. -/
def pointed_frame (e : Nat) : Option Frame :=
  if e.testBit 0 then some ⟨e / 4096 % 0x10000000000⟩ else none

/-- Modelled from the spec: `Table::next_table` from the absent
`table.rs` — if the parent entry at `i` is present, descend to its target
frame, else there is no next table. -/
def next_table (m : Mem) (tf i : Nat) : Option Nat :=
  (pointed_frame (m tf i)).map Frame.number

/-- Modelled from the spec: `Table::next_table_create` from the absent
`table.rs` — reuse a present entry's table; otherwise allocate a frame
from the supplied allocator (halting when exhausted), install it with
`PRESENT | WRITABLE`, and zero the new table. -/
def next_table_create (m : Mem) (tf i : Nat) (al : List Nat) :
    Option (Nat × Mem × List Nat) :=
  match pointed_frame (m tf i) with
  | some fr => some (fr.number, m, al)
  | none =>
    match al with
    | [] => none
    | c :: rest =>
      some (c, memZeroTable (memWrite m tf i (entrySet ⟨c⟩ (PRESENT ||| WRITABLE))) c, rest)

/-- Modelled from the spec: the table walk of `Mapper::translate_page`
from the absent `mapper.rs` — follow the four levels from the root table
frame `r`, returning `none` as soon as an entry is absent. -/
def translate_page (m : Mem) (r : Nat) (p : Page) : Option Frame :=
  match next_table m r p.p4_index with
  | none => none
  | some p3 =>
    match next_table m p3 p.p3_index with
    | none => none
    | some p2 =>
      match next_table m p2 p.p2_index with
      | none => none
      | some p1 => pointed_frame (m p1 p.p1_index)

/-- Modelled from the spec: `Mapper::translate(virtual_address)` from the
absent `mapper.rs` — page lookup plus the in-page offset.  The virtual
address passes through `Page::containing_address`, so a non-canonical
address halts. -/
def translate (m : Mem) (r : Nat) (va : Nat) : Option Nat :=
  match Page.containing_address va with
  | none => none
  | some p => (translate_page m r p).map (fun fr => fr.start_address + va % PAGE_SIZE)

/-- Modelled from the spec: the body of `Mapper::map_to` from the absent
`mapper.rs`, exposing the three intermediate table frames of the walk in
addition to `map_to`'s own effect: walk/create `P3`,`P2`,`P1`, then set
the `P1` entry for the page to `frame` with `flags | PRESENT`. -/
def mapToAux (m : Mem) (r : Nat) (p : Page) (f : Frame) (flags : Nat) (al : List Nat) :
    Option (Mem × List Nat × Nat × Nat × Nat) :=
  match next_table_create m r p.p4_index al with
  | none => none
  | some (p3, m1, al1) =>
    match next_table_create m1 p3 p.p3_index al1 with
    | none => none
    | some (p2, m2, al2) =>
      match next_table_create m2 p2 p.p2_index al2 with
      | none => none
      | some (p1, m3, al3) =>
        some (memWrite m3 p1 p.p1_index (entrySet f (flags ||| PRESENT)), al3, p3, p2, p1)

/-- Modelled from the spec: `Mapper::map_to` from the absent `mapper.rs`
(the walk data of `mapToAux` projected away). -/
def map_to (m : Mem) (r : Nat) (p : Page) (f : Frame) (flags : Nat) (al : List Nat) :
    Option (Mem × List Nat) :=
  (mapToAux m r p f flags al).map (fun x => (x.1, x.2.1))

/-- Modelled from the spec: `Mapper::identity_map` from the absent
`mapper.rs`, walk data included: map `Page::containing_address
(frame.start_address())` to `frame` itself. -/
def identityMapAux (m : Mem) (r : Nat) (f : Frame) (flags : Nat) (al : List Nat) :
    Option (Mem × List Nat × Nat × Nat × Nat) :=
  match Page.containing_address f.start_address with
  | none => none
  | some p => mapToAux m r p f flags al

/-- Modelled from the spec: `Mapper::identity_map` from the absent
`mapper.rs`. -/
def identity_map (m : Mem) (r : Nat) (f : Frame) (flags : Nat) (al : List Nat) :
    Option (Mem × List Nat) :=
  (identityMapAux m r f flags al).map (fun x => (x.1, x.2.1))

/-- Machine state: the table arena plus the `cr3` root-table register
value (a physical address). -/
structure State where
  mem : Mem
  cr3 : Nat

/-- The frame the `Mapper`'s `P4` pointer reaches through the recursive
virtual address (slot 511 resolved at all four levels starting from the
`cr3` table frame `c`). -/
def recP4 (m : Mem) (c : Nat) : Option Nat :=
  match next_table m c 511 with
  | none => none
  | some a =>
    match next_table m a 511 with
    | none => none
    | some b =>
      match next_table m b 511 with
      | none => none
      | some d => next_table m d 511

/-- Modelled from the spec: `TemporaryPage` from the absent
`temporary_page.rs` — a reserved virtual page plus a tiny private pool of
spare frames for the intermediate tables of its own mapping. -/
structure TemporaryPage where
  page : Page
  pool : List Nat

/-- Modelled from the spec: `TemporaryPage::new(page, allocator)` — the
private pool takes its spare frames (one per intermediate level
`P3`/`P2`/`P1`) from the caller's allocator up front. -/
def TemporaryPage.new (p : Page) (al : List Nat) : TemporaryPage × List Nat :=
  (⟨p, al.take 3⟩, al.drop 3)

/-- Modelled from the spec: `TemporaryPage::map_table_frame(frame,
active_table)` — map `frame` at the reserved page via the active mapper
(root resolved through the recursive slot), drawing missing intermediate
tables from the private pool. -/
def map_table_frame (tp : TemporaryPage) (m : Mem) (c : Nat) (f : Frame) :
    Option (Mem × TemporaryPage) :=
  match recP4 m c with
  | none => none
  | some r =>
    match map_to m r tp.page f WRITABLE tp.pool with
    | none => none
    | some (m', pool') => some (m', ⟨tp.page, pool'⟩)

/-- Modelled from the spec: `TemporaryPage::unmap(active_table)` —
remove the single mapping of the reserved page from the active hierarchy
(clear its `P1` entry). -/
def tpUnmap (tp : TemporaryPage) (m : Mem) (c : Nat) : Option Mem :=
  match recP4 m c with
  | none => none
  | some r =>
    match next_table m r tp.page.p4_index with
    | none => none
    | some p3 =>
      match next_table m p3 tp.page.p3_index with
      | none => none
      | some p2 =>
        match next_table m p2 tp.page.p2_index with
        | none => none
        | some p1 => some (memWrite m p1 tp.page.p1_index 0)

/-- `ActivePageTable::with(table, temporary_page, f)` from
`src/memory/paging/mod.rs`: read the backup frame from `cr3`, obtain a
temporary view of its table, overwrite the recursive slot 511 (resolved
through the recursive mapping) with the inactive frame, run `f`, restore
slot 511 through the backup view to `backup` with `PRESENT | WRITABLE`,
and unmap the temporary page.  Translation-cache flushes have no memory
effect in this model. -/
def withTable {α : Type} (st : State) (inactive : Frame) (tp : TemporaryPage)
    (f : Mem → Option (Mem × α)) : Option (State × TemporaryPage × α) :=
  let backup := Frame.containing_address st.cr3
  match map_table_frame tp st.mem backup.number backup with
  | none => none
  | some (m1, tp1) =>
    match recP4 m1 backup.number with
    | none => none
    | some r =>
      let m2 := memWrite m1 r 511 (entrySet inactive (PRESENT ||| WRITABLE))
      match f m2 with
      | none => none
      | some (m3, a) =>
        let m4 := memWrite m3 backup.number 511 (entrySet backup (PRESENT ||| WRITABLE))
        match tpUnmap tp1 m4 backup.number with
        | none => none
        | some m5 => some (⟨m5, st.cr3⟩, tp1, a)

/-- `InactivePageTable` from `src/memory/paging/mod.rs`. -/
structure InactivePageTable where
  p4_frame : Frame

/-- `InactivePageTable::new(frame, active_table, temporary_page)` from
`src/memory/paging/mod.rs`: map `frame` via the temporary page, zero it,
install the self-referential slot-511 entry, unmap, return the handle. -/
def InactivePageTable.new (frame : Frame) (st : State) (tp : TemporaryPage) :
    Option (InactivePageTable × State × TemporaryPage) :=
  let c := (Frame.containing_address st.cr3).number
  match map_table_frame tp st.mem c frame with
  | none => none
  | some (m1, tp1) =>
    let m2 := memZeroTable m1 frame.number
    let m3 := memWrite m2 frame.number 511 (entrySet frame (PRESENT ||| WRITABLE))
    match tpUnmap tp1 m3 c with
    | none => none
    | some m4 => some (⟨frame⟩, ⟨m4, st.cr3⟩, tp1)

/-- Modelled from the spec: one entry of the boot-loader's loaded-sections
list (start address, size, allocated/loaded flag); the `multiboot2` crate
supplying it is an external collaborator. -/
structure ElfSection where
  addr : Nat
  size : Nat
  allocated : Bool

/-- Modelled from the spec: the boot information consumed by
`remap_the_kernel` — the loaded-sections list. -/
structure BootInfo where
  sections : List ElfSection

/-- The address sequence `(start..stop).step_by(PAGE_SIZE)`:
`start + PAGE_SIZE * k` for every `k` with `start + PAGE_SIZE * k < stop`. -/
def stepRange (start stop : Nat) : List Nat :=
  (List.range ((stop - start + 4095) / 4096)).map (fun k => start + 4096 * k)

/-- `identity_map` issued against the active table: the mapper root is
resolved through the recursive slot from the `cr3` table frame `c`. -/
def identityMapActive (m : Mem) (c : Nat) (f : Frame) (flags : Nat) (al : List Nat) :
    Option (Mem × List Nat) :=
  match recP4 m c with
  | none => none
  | some r => identity_map m r f flags al

/-- The inner loop of `remap_the_kernel`: for each address, assert page
alignment (halting otherwise) and identity-map its containing frame with
`WRITABLE`. -/
def mapAddrs (c : Nat) : Mem → List Nat → List Nat → Option (Mem × List Nat)
  | m, al, [] => some (m, al)
  | m, al, a :: rest =>
    if a % PAGE_SIZE = 0 then
      match identityMapActive m c (Frame.containing_address a) WRITABLE al with
      | none => none
      | some (m', al') => mapAddrs c m' al' rest
    else none

/-- One section of `remap_the_kernel`'s loop: skip sections whose
`ELF_SECTION_ALLOCATED` flag is unset, else map every stepped address of
`[addr, addr + size)`. -/
def processSection (c : Nat) (m : Mem) (al : List Nat) (s : ElfSection) :
    Option (Mem × List Nat) :=
  if s.allocated then mapAddrs c m al (stepRange s.addr (s.addr + s.size))
  else some (m, al)

/-- The section loop of `remap_the_kernel`. -/
def sectionsFold (c : Nat) : Mem → List Nat → List ElfSection → Option (Mem × List Nat)
  | m, al, [] => some (m, al)
  | m, al, s :: rest =>
    match processSection c m al s with
    | none => none
    | some (m', al') => sectionsFold c m' al' rest

/-- `remap_the_kernel(allocator, boot_info)` from
`src/memory/paging/mod.rs`: reserve the temporary page `0xcafebabe`,
allocate a frame for the new `P4` (halting on exhaustion), stage it as an
`InactivePageTable`, and under `with` identity-map every allocated
section.  Returns the final state and the staged table's root frame. -/
def remap_the_kernel (st : State) (allocator : List Nat) (boot_info : BootInfo) :
    Option (State × Frame) :=
  let tpinit := TemporaryPage.new ⟨0xcafebabe⟩ allocator
  match tpinit.2 with
  | [] => none
  | fr :: al2 =>
    match InactivePageTable.new ⟨fr⟩ st tpinit.1 with
    | none => none
    | some (new_table, st1, tp1) =>
      let c := (Frame.containing_address st1.cr3).number
      match withTable st1 new_table.p4_frame tp1
          (fun m => sectionsFold c m al2 boot_info.sections) with
      | none => none
      | some (st2, _, _) => some (st2, new_table.p4_frame)

/-- The all-zero arena. -/
def memEmpty : Mem := fun _ _ => 0

/-- A minimal valid pre-boot arena: the active `P4` table lives in frame 8
and holds only its recursive slot-511 self-reference. -/
def mem0 : Mem := memWrite memEmpty 8 511 (entrySet ⟨8⟩ (PRESENT ||| WRITABLE))

/-- The machine state with `mem0` active (`cr3` loaded with frame 8). -/
def st0 : State := ⟨mem0, 8 * 4096⟩

/-- The temporary page of `remap_the_kernel` with a three-frame pool. -/
def tp0 : TemporaryPage := ⟨⟨0xcafebabe⟩, [1, 2, 3]⟩

/-- Boot info of the C2 scenario: one allocated section
`{addr = 0x100000, size = 0x3000}`. -/
def bi0 : BootInfo := ⟨[⟨0x100000, 0x3000, true⟩]⟩

/-- A pre-boot arena whose recursive slot-511 entry carries an extra flag
bit (bit 63) beyond `PRESENT | WRITABLE`. -/
def memX : Mem :=
  memWrite memEmpty 8 511 (entrySet ⟨8⟩ (PRESENT ||| WRITABLE ||| 0x8000000000000000))

/-- The machine state with `memX` active. -/
def stX : State := ⟨memX, 8 * 4096⟩


/-- The arena produced by `identityMapAux memEmpty 100 ⟨0x100⟩ WRITABLE
[101, 102, 103]`: three freshly created tables and the final `P1` entry. -/
def c4mem : Mem :=
  memWrite
    (memZeroTable
      (memWrite
        (memZeroTable
          (memWrite
            (memZeroTable
              (memWrite memEmpty 100 0 (entrySet ⟨101⟩ (PRESENT ||| WRITABLE)))
              101)
            101 0 (entrySet ⟨102⟩ (PRESENT ||| WRITABLE)))
          102)
        102 0 (entrySet ⟨103⟩ (PRESENT ||| WRITABLE)))
      103)
    103 256 (entrySet ⟨0x100⟩ (WRITABLE ||| PRESENT))

/-! ### Helper lemmas about the arena and the modelled operations -/

theorem memWrite_same (m : Mem) (a b v : Nat) : memWrite m a b v a b = v := by
  simp [memWrite]

theorem memWrite_frame_ne (m : Mem) (a b v g t : Nat) (h : g ≠ a) :
    memWrite m a b v g t = m g t := by
  simp [memWrite, h]

theorem memWrite_slot_ne (m : Mem) (a b v g t : Nat) (h : t ≠ b) :
    memWrite m a b v g t = m g t := by
  simp [memWrite, h]

theorem memZero_ne (m : Mem) (a g t : Nat) (h : g ≠ a) :
    memZeroTable m a g t = m g t := by
  simp [memZeroTable, h]

/-- Dividing out the low 12 bits ignores a disjoint low-bits disjunct. -/
theorem lor_div_4096 (a b : Nat) (hb : b < 4096) : (a ||| b) / 4096 = a / 4096 := by
  have h1 : (a ||| b) >>> 12 = a >>> 12 := by
    apply Nat.eq_of_testBit_eq
    intro i
    rw [Nat.testBit_shiftRight, Nat.testBit_shiftRight, Nat.testBit_lor]
    have hb2 : b.testBit (12 + i) = false := by
      apply Nat.testBit_lt_two_pow
      calc b < 4096 := hb
        _ = 2 ^ 12 := by norm_num
        _ ≤ 2 ^ (12 + i) := Nat.pow_le_pow_right (by norm_num) (by omega)
    rw [hb2, Bool.or_false]
  have h2 : (4096 : Nat) = 2 ^ 12 := by norm_num
  rw [h2, ← Nat.shiftRight_eq_div_pow, ← Nat.shiftRight_eq_div_pow, h1]

/-- Decoding an entry written by `entrySet` with low-bit flags containing
`PRESENT` recovers the frame, provided the frame number fits the 40-bit
packed field. -/
theorem pointed_entrySet (f : Frame) (fl : Nat) (hodd : fl.testBit 0 = true)
    (hfl : fl < 4096) (hf : f.number < 0x10000000000) :
    pointed_frame (entrySet f fl) = some f := by
  have hbit : (f.start_address ||| fl).testBit 0 = true := by
    rw [Nat.testBit_lor, hodd, Bool.or_true]
  have hdiv : (f.start_address ||| fl) / 4096 = f.start_address / 4096 :=
    lor_div_4096 _ _ hfl
  unfold pointed_frame entrySet
  rw [if_pos hbit, hdiv]
  have hnum : f.start_address / 4096 % 0x10000000000 = f.number := by
    unfold Frame.start_address PAGE_SIZE USIZE
    omega
  rw [hnum]

theorem ntc_untouched (m m' : Mem) (tf i c : Nat) (al al' : List Nat)
    (h : next_table_create m tf i al = some (c, m', al')) :
    ∀ g t, g ≠ tf → g ≠ c → m' g t = m g t := by
  intro g t hg hc
  unfold next_table_create at h
  rcases hp : pointed_frame (m tf i) with _ | fr
  · rw [hp] at h
    rcases al with _ | ⟨x, rest⟩
    · exact absurd h (by simp)
    · simp only [Option.some.injEq, Prod.mk.injEq] at h
      obtain ⟨hc1, hm, _⟩ := h
      subst hc1 hm
      rw [memZero_ne _ _ _ _ hc, memWrite_frame_ne _ _ _ _ _ _ hg]
  · rw [hp] at h
    simp only [Option.some.injEq, Prod.mk.injEq] at h
    obtain ⟨_, hm, _⟩ := h
    rw [← hm]

theorem ntc_pointed (m m' : Mem) (tf i c : Nat) (al al' : List Nat)
    (h : next_table_create m tf i al = some (c, m', al'))
    (hne : tf ≠ c) (hal : ∀ x ∈ al, x < 0x10000000000) :
    pointed_frame (m' tf i) = some ⟨c⟩ := by
  unfold next_table_create at h
  rcases hp : pointed_frame (m tf i) with _ | fr
  · rw [hp] at h
    rcases al with _ | ⟨x, rest⟩
    · exact absurd h (by simp)
    · simp only [Option.some.injEq, Prod.mk.injEq] at h
      obtain ⟨hc1, hm, _⟩ := h
      subst hc1
      rw [← hm, memZero_ne _ _ _ _ hne, memWrite_same]
      exact pointed_entrySet ⟨x⟩ (PRESENT ||| WRITABLE) (by decide) (by decide)
        (hal x (by simp))
  · rw [hp] at h
    simp only [Option.some.injEq, Prod.mk.injEq] at h
    obtain ⟨hc1, hm, _⟩ := h
    rw [← hm, hp, ← hc1]

theorem ntc_al_sub (m m' : Mem) (tf i c : Nat) (al al' : List Nat)
    (h : next_table_create m tf i al = some (c, m', al')) :
    ∀ x ∈ al', x ∈ al := by
  intro x hx
  unfold next_table_create at h
  rcases hp : pointed_frame (m tf i) with _ | fr
  · rw [hp] at h
    rcases al with _ | ⟨y, rest⟩
    · exact absurd h (by simp)
    · simp only [Option.some.injEq, Prod.mk.injEq] at h
      obtain ⟨_, _, hal⟩ := h
      subst hal
      exact List.mem_cons_of_mem _ hx
  · rw [hp] at h
    simp only [Option.some.injEq, Prod.mk.injEq] at h
    obtain ⟨_, _, hal⟩ := h
    subst hal
    exact hx

theorem mtf_page (tp tp' : TemporaryPage) (m m' : Mem) (c : Nat) (f : Frame)
    (h : map_table_frame tp m c f = some (m', tp')) : tp'.page = tp.page := by
  unfold map_table_frame at h
  rcases h1 : recP4 m c with _ | r
  · simp only [h1] at h
    exact Option.noConfusion h
  · simp only [h1] at h
    rcases h2 : map_to m r tp.page f WRITABLE tp.pool with _ | ⟨m2, pool2⟩
    · simp only [h2] at h
      exact Option.noConfusion h
    · simp only [h2, Option.some.injEq, Prod.mk.injEq] at h
      obtain ⟨_, htp⟩ := h
      rw [← htp]

theorem tpUnmap_shape (tp : TemporaryPage) (m m' : Mem) (c : Nat)
    (h : tpUnmap tp m c = some m') :
    ∃ p1, m' = memWrite m p1 tp.page.p1_index 0 := by
  unfold tpUnmap at h
  rcases h1 : recP4 m c with _ | r
  · simp only [h1] at h
    exact Option.noConfusion h
  rcases h2 : next_table m r tp.page.p4_index with _ | p3
  · simp only [h1, h2] at h
    exact Option.noConfusion h
  rcases h3 : next_table m p3 tp.page.p3_index with _ | p2
  · simp only [h1, h2, h3] at h
    exact Option.noConfusion h
  rcases h4 : next_table m p2 tp.page.p2_index with _ | p1
  · simp only [h1, h2, h3, h4] at h
    exact Option.noConfusion h
  simp only [h1, h2, h3, h4, Option.some.injEq] at h
  exact ⟨p1, h.symm⟩



theorem memZero_same (m : Mem) (a t : Nat) : memZeroTable m a a t = 0 := by
  simp [memZeroTable]

/-! ### Claims -/

/-- Claim C5: `Page::containing_address(addr)` fails (the canonical
assertion halts) if and only if `addr` lies in the non-canonical hole
`[0x0000_8000_0000_0000, 0xffff_8000_0000_0000)`; for every address
outside the hole it succeeds and returns the page with number
`addr / 4096`. -/
theorem c5_canonical_validation (a : Nat) :
    (Page.containing_address a = none ↔
      0x0000800000000000 ≤ a ∧ a < 0xffff800000000000)
    ∧ ((a < 0x0000800000000000 ∨ 0xffff800000000000 ≤ a) →
      Page.containing_address a = some ⟨a / 4096⟩) := by
  unfold Page.containing_address
  constructor
  · constructor
    · intro h
      by_cases hc : a < 0x0000800000000000 ∨ 0xffff800000000000 ≤ a
      · rw [if_pos hc] at h
        exact Option.noConfusion h
      · omega
    · intro h
      rw [if_neg (by omega)]
  · intro h
    rw [if_pos h]
    rfl

/-- Witness for C5 at the concrete addresses `0x1000` (canonical) and
`0x0000_8000_0000_0000` (first address of the hole). -/
theorem c5_witness :
    Page.containing_address 0x1000 = some ⟨1⟩
    ∧ Page.containing_address 0x0000800000000000 = none :=
  ⟨(c5_canonical_validation 0x1000).2 (by decide),
   (c5_canonical_validation 0x0000800000000000).1.mpr (by decide)⟩

/-- Claim C6: for every page whose start address is canonical,
`Page::containing_address(p.start_address())` yields a page with the same
four table indices as `p`. -/
theorem c6_index_roundtrip (p q : Page)
    (h : Page.containing_address p.start_address = some q) :
    q.p4_index = p.p4_index ∧ q.p3_index = p.p3_index
    ∧ q.p2_index = p.p2_index ∧ q.p1_index = p.p1_index := by
  unfold Page.containing_address at h
  by_cases hc : p.start_address < 0x0000800000000000 ∨ 0xffff800000000000 ≤ p.start_address
  · rw [if_pos hc, Option.some.injEq] at h
    subst h
    have hnum : p.start_address / PAGE_SIZE = p.number % 0x10000000000000 := by
      unfold Page.start_address PAGE_SIZE USIZE
      omega
    have h511 : (0o777 : Nat) = 2 ^ 9 - 1 := by norm_num
    unfold Page.p4_index Page.p3_index Page.p2_index Page.p1_index
    dsimp only
    rw [hnum]
    simp only [h511, Nat.and_pow_two_sub_one_eq_mod, Nat.shiftRight_eq_div_pow]
    norm_num
    omega
  · rw [if_neg hc] at h
    exact Option.noConfusion h

/-- Witness for C6 at `p = ⟨0x10000000000007⟩`, a page whose start
address wraps around `usize` to the canonical `0x7000`; the round trip
gives `⟨7⟩` with the same indices. -/
theorem c6_witness :
    Page.p4_index ⟨7⟩ = Page.p4_index ⟨0x10000000000007⟩
    ∧ Page.p3_index ⟨7⟩ = Page.p3_index ⟨0x10000000000007⟩
    ∧ Page.p2_index ⟨7⟩ = Page.p2_index ⟨0x10000000000007⟩
    ∧ Page.p1_index ⟨7⟩ = Page.p1_index ⟨0x10000000000007⟩ :=
  c6_index_roundtrip ⟨0x10000000000007⟩ ⟨7⟩ (by decide)

/-- Counterexample for C7 as stated: the allocated section
`{addr = 0x100001, size = 0}` has both boundaries misaligned, yet
`remap_the_kernel` completes without halting (the stepped range is
empty, so the in-loop alignment assertion never runs). -/
theorem c7_counterexample :
    0x100001 % 4096 ≠ 0 ∧ (0x100001 + 0) % 4096 ≠ 0
    ∧ (remap_the_kernel st0 [1, 2, 3, 4, 5, 6, 7]
        ⟨[⟨0x100001, 0, true⟩]⟩).isSome = true :=
  ⟨by decide, by decide, rfl⟩

/-- Claim C7 (amended): every allocated section of positive size with
misaligned boundaries makes the section loop halt at the alignment
assertion on its first address, before any mapping is installed. -/
theorem c7_misaligned_section_halts (c : Nat) (m : Mem) (al : List Nat)
    (s : ElfSection) (h1 : s.allocated = true) (h2 : s.addr % 4096 ≠ 0)
    (h3 : (s.addr + s.size) % 4096 ≠ 0) (h4 : 0 < s.size) :
    processSection c m al s = none := by
  unfold processSection
  rw [if_pos h1]
  obtain ⟨k, hk⟩ : ∃ k, (s.addr + s.size - s.addr + 4095) / 4096 = k + 1 :=
    ⟨(s.addr + s.size - s.addr + 4095) / 4096 - 1, by omega⟩
  unfold stepRange
  rw [hk, List.range_succ_eq_map]
  simp only [List.map_cons]
  simp only [mapAddrs]
  rw [if_neg (by unfold PAGE_SIZE; omega)]

/-- Witness for the amended C7 at the concrete section
`{addr = 1, size = 1, allocated}`. -/
theorem c7_witness : processSection 0 memEmpty [] ⟨1, 1, true⟩ = none :=
  c7_misaligned_section_halts 0 memEmpty [] ⟨1, 1, true⟩ (by decide) (by decide)
    (by decide) (by decide)

/-- Counterexample for C8 as stated: for `x = ⟨1⟩` and
`y = ⟨0x10000000000000⟩` (whose start address wraps to 0 in `usize`
arithmetic) the derived order and start-address order disagree. -/
theorem c8_counterexample :
    ¬(Frame.lt ⟨1⟩ ⟨0x10000000000000⟩ ↔
      Frame.start_address ⟨1⟩ < Frame.start_address ⟨0x10000000000000⟩) := by
  decide

/-- Claim C8 (amended): `Frame`'s derived order is a strict total order
(total, transitive, irreflexive), and for frames whose numbers stay
below `2^52` — so `start_address` does not overflow — `x < y` holds iff
`x`'s start address is numerically below `y`'s.  (`Page` derives no
order in the code.) -/
theorem c8_frame_order (x y z : Frame)
    (hx : x.number < 0x10000000000000) (hy : y.number < 0x10000000000000) :
    (Frame.lt x y ↔ x.start_address < y.start_address)
    ∧ (Frame.lt x y ∨ x = y ∨ Frame.lt y x)
    ∧ (Frame.lt x y → Frame.lt y z → Frame.lt x z)
    ∧ ¬Frame.lt x x := by
  unfold Frame.lt Frame.start_address PAGE_SIZE USIZE
  refine ⟨by omega, ?_, by omega, by omega⟩
  rcases Nat.lt_trichotomy x.number y.number with hlt | heq | hgt
  · exact Or.inl hlt
  · refine Or.inr (Or.inl ?_)
    cases x
    cases y
    simpa using heq
  · exact Or.inr (Or.inr hgt)

/-- Witness for the amended C8 at the frames `⟨1⟩`, `⟨2⟩`, `⟨3⟩`. -/
theorem c8_witness :
    (Frame.lt ⟨1⟩ ⟨2⟩ ↔ Frame.start_address ⟨1⟩ < Frame.start_address ⟨2⟩)
    ∧ (Frame.lt ⟨1⟩ ⟨2⟩ ∨ (⟨1⟩ : Frame) = ⟨2⟩ ∨ Frame.lt ⟨2⟩ ⟨1⟩)
    ∧ (Frame.lt ⟨1⟩ ⟨2⟩ → Frame.lt ⟨2⟩ ⟨3⟩ → Frame.lt ⟨1⟩ ⟨3⟩)
    ∧ ¬Frame.lt ⟨1⟩ ⟨1⟩ :=
  c8_frame_order ⟨1⟩ ⟨2⟩ ⟨3⟩ (by decide) (by decide)

/-- Claim C9: when `allocate_frame` yields nothing at a point where
`remap_the_kernel` needs a frame, execution halts fatally there — with
an empty allocator the staging of the new `P4` table halts for any boot
info, and with four frames (three taken by the temporary page's pool,
one by the new `P4`) the creation of the first missing intermediate
table halts; no retry or recovery path exists in the model, `none`
propagates to the caller. -/
theorem c9_allocator_exhaustion_halts :
    (∀ (st : State) (bi : BootInfo), remap_the_kernel st [] bi = none)
    ∧ remap_the_kernel st0 [1, 2, 3, 4] bi0 = none :=
  ⟨fun _ _ => rfl, rfl⟩

/-- Claim C10: a frame whose start address lies in the non-canonical
hole makes `identity_map` halt at the canonical assertion inside
`Page::containing_address` (for any arena, root, flags and allocator),
and hence the section loop of `remap_the_kernel` halts on a section at
such a physical address. -/
theorem c10_hole_frame_halts (m : Mem) (r : Nat) (f : Frame) (flags : Nat)
    (al : List Nat) (h1 : 0x0000800000000000 ≤ f.start_address)
    (h2 : f.start_address < 0xffff800000000000) :
    identity_map m r f flags al = none
    ∧ processSection 8 mem0 [] ⟨0x0000800000000000, 4096, true⟩ = none := by
  refine ⟨?_, rfl⟩
  unfold identity_map identityMapAux Page.containing_address
  rw [if_neg (by omega)]
  rfl

/-- Witness for C10 at the frame `⟨0x800000000⟩`, whose start address is
exactly the bottom of the non-canonical hole. -/
theorem c10_witness :
    identity_map memEmpty 0 ⟨0x800000000⟩ 0 [] = none :=
  (c10_hole_frame_halts memEmpty 0 ⟨0x800000000⟩ 0 [] (by decide) (by decide)).1


/-- Counterexample for C1 as stated: starting from a backup table whose
recursive slot-511 entry carries an extra flag bit (bit 63), `with`
returns, but the slot now holds exactly `backup | PRESENT | WRITABLE` —
the extra flag bit of the pre-call value is gone, so the entry is not
restored bit for bit. -/
theorem c1_counterexample :
    (withTable stX ⟨9⟩ tp0 (fun m => some (m, (0 : Nat)))).map
        (fun r => r.1.mem 8 511)
      = some (entrySet ⟨8⟩ (PRESENT ||| WRITABLE))
    ∧ stX.mem 8 511 ≠ entrySet ⟨8⟩ (PRESENT ||| WRITABLE) :=
  ⟨rfl, by decide⟩

/-- Claim C1 (amended): whenever `with` returns, the backup table's
slot-511 entry holds the backup frame with exactly `PRESENT | WRITABLE`
(for any action `f`, given that the temporary page's `P1` index is not
511, as holds for the fixed page `0xcafebabe`); consequently the entry
equals its pre-call value bit for bit exactly when the pre-call value
already was the standard recursive entry `backup | PRESENT | WRITABLE`. -/
theorem c1_with_restore {α : Type} (st : State) (inactive : Frame)
    (tp : TemporaryPage) (f : Mem → Option (Mem × α)) (st' : State)
    (tp' : TemporaryPage) (a : α) (hidx : tp.page.p1_index ≠ 511)
    (h : withTable st inactive tp f = some (st', tp', a)) :
    st'.mem (Frame.containing_address st.cr3).number 511
      = entrySet (Frame.containing_address st.cr3) (PRESENT ||| WRITABLE)
    ∧ (st.mem (Frame.containing_address st.cr3).number 511
        = entrySet (Frame.containing_address st.cr3) (PRESENT ||| WRITABLE) →
      st'.mem (Frame.containing_address st.cr3).number 511
        = st.mem (Frame.containing_address st.cr3).number 511) := by
  unfold withTable at h
  rcases h1 : map_table_frame tp st.mem (Frame.containing_address st.cr3).number
      (Frame.containing_address st.cr3) with _ | ⟨m1, tp1⟩
  · simp only [h1] at h
    exact Option.noConfusion h
  simp only [h1] at h
  rcases h2 : recP4 m1 (Frame.containing_address st.cr3).number with _ | r
  · simp only [h2] at h
    exact Option.noConfusion h
  simp only [h2] at h
  rcases h3 : f (memWrite m1 r 511 (entrySet inactive (PRESENT ||| WRITABLE)))
      with _ | ⟨m3, a1⟩
  · simp only [h3] at h
    exact Option.noConfusion h
  simp only [h3] at h
  rcases h4 : tpUnmap tp1
      (memWrite m3 (Frame.containing_address st.cr3).number 511
        (entrySet (Frame.containing_address st.cr3) (PRESENT ||| WRITABLE)))
      (Frame.containing_address st.cr3).number with _ | m5
  · simp only [h4] at h
    exact Option.noConfusion h
  simp only [h4, Option.some.injEq, Prod.mk.injEq] at h
  obtain ⟨hst, htp, ha⟩ := h
  obtain ⟨p1v, hm5⟩ := tpUnmap_shape _ _ _ _ h4
  have hpage : tp1.page = tp.page := mtf_page _ _ _ _ _ _ h1
  have hidx1 : (511 : Nat) ≠ tp1.page.p1_index := by
    rw [hpage]
    exact fun hh => hidx hh.symm
  have hmem : st'.mem = m5 := by rw [← hst]
  have hfinal : st'.mem (Frame.containing_address st.cr3).number 511
      = entrySet (Frame.containing_address st.cr3) (PRESENT ||| WRITABLE) := by
    rw [hmem, hm5, memWrite_slot_ne _ _ _ _ _ _ hidx1, memWrite_same]
  exact ⟨hfinal, fun hpre => hfinal.trans hpre.symm⟩

/-- Witness for the amended C1: the concrete run on the valid pre-boot
state `st0` restores slot 511 of the backup table (frame 8) to the
standard recursive entry. -/
theorem c1_witness :
    (withTable st0 ⟨9⟩ tp0 (fun m => some (m, (0 : Nat)))).map
        (fun r => r.1.mem 8 511)
      = some (entrySet ⟨8⟩ (PRESENT ||| WRITABLE)) := by
  rcases h : withTable st0 ⟨9⟩ tp0 (fun m => some (m, (0 : Nat)))
      with _ | ⟨st', tp', a⟩
  · have hs : (withTable st0 ⟨9⟩ tp0 (fun m => some (m, (0 : Nat)))).isSome
        = true := rfl
    rw [h] at hs
    exact Bool.noConfusion hs
  · have hres : st'.mem 8 511 = entrySet ⟨8⟩ (PRESENT ||| WRITABLE) :=
      (c1_with_restore st0 ⟨9⟩ tp0 _ st' tp' a (by decide) h).1
    exact congrArg some hres

/-- Claim C3: after `InactivePageTable::new(f, active_table, temp_page)`
returns, the staged table in frame `f` has its slot-511 entry pointing
at `f` itself with `PRESENT | WRITABLE`, and every other slot `0..510`
is zero (given that the temporary page's `P1` index is not 511, as holds
for the fixed page `0xcafebabe`). -/
theorem c3_inactive_new (frame : Frame) (st : State) (tp : TemporaryPage)
    (it : InactivePageTable) (st' : State) (tp' : TemporaryPage)
    (hidx : tp.page.p1_index ≠ 511)
    (h : InactivePageTable.new frame st tp = some (it, st', tp')) :
    it.p4_frame = frame
    ∧ st'.mem frame.number 511 = entrySet frame (PRESENT ||| WRITABLE)
    ∧ (frame.number < 0x10000000000 →
        pointed_frame (st'.mem frame.number 511) = some frame)
    ∧ ∀ i, i < 511 → st'.mem frame.number i = 0 := by
  unfold InactivePageTable.new at h
  rcases h1 : map_table_frame tp st.mem (Frame.containing_address st.cr3).number
      frame with _ | ⟨m1, tp1⟩
  · simp only [h1] at h
    exact Option.noConfusion h
  simp only [h1] at h
  rcases h2 : tpUnmap tp1
      (memWrite (memZeroTable m1 frame.number) frame.number 511
        (entrySet frame (PRESENT ||| WRITABLE)))
      (Frame.containing_address st.cr3).number with _ | m4
  · simp only [h2] at h
    exact Option.noConfusion h
  simp only [h2, Option.some.injEq, Prod.mk.injEq] at h
  obtain ⟨hit, hst, htp⟩ := h
  obtain ⟨p1v, hm4⟩ := tpUnmap_shape _ _ _ _ h2
  have hpage : tp1.page = tp.page := mtf_page _ _ _ _ _ _ h1
  have hidx1 : (511 : Nat) ≠ tp1.page.p1_index := by
    rw [hpage]
    exact fun hh => hidx hh.symm
  have hmem : st'.mem = m4 := by rw [← hst]
  have h511 : st'.mem frame.number 511 = entrySet frame (PRESENT ||| WRITABLE) := by
    rw [hmem, hm4, memWrite_slot_ne _ _ _ _ _ _ hidx1, memWrite_same]
  refine ⟨by rw [← hit], h511, ?_, ?_⟩
  · intro hb
    rw [h511]
    exact pointed_entrySet frame (PRESENT ||| WRITABLE) (by decide) (by decide) hb
  · intro i hi
    rw [hmem, hm4]
    by_cases hg : frame.number = p1v
    · by_cases ht2 : i = tp1.page.p1_index
      · rw [hg, ht2, memWrite_same]
      · rw [memWrite_slot_ne _ _ _ _ _ _ ht2,
          memWrite_slot_ne _ _ _ _ _ _ (by omega : i ≠ 511), memZero_same]
    · rw [memWrite_frame_ne _ _ _ _ _ _ hg,
        memWrite_slot_ne _ _ _ _ _ _ (by omega : i ≠ 511), memZero_same]

/-- Witness for C3: the concrete staging of frame 4 from the pre-boot
state `st0`. -/
theorem c3_witness :
    (InactivePageTable.new ⟨4⟩ st0 tp0).map
        (fun r => (r.1.p4_frame, r.2.1.mem 4 511, pointed_frame (r.2.1.mem 4 511),
          r.2.1.mem 4 0, r.2.1.mem 4 510))
      = some (⟨4⟩, entrySet ⟨4⟩ (PRESENT ||| WRITABLE),
          some ⟨4⟩, 0, 0) := by
  rcases h : InactivePageTable.new ⟨4⟩ st0 tp0 with _ | ⟨it, st', tp'⟩
  · have hs : (InactivePageTable.new ⟨4⟩ st0 tp0).isSome = true := rfl
    rw [h] at hs
    exact Bool.noConfusion hs
  · obtain ⟨e1, e2, e3, e4⟩ := c3_inactive_new ⟨4⟩ st0 tp0 it st' tp' (by decide) h
    have e2' : st'.mem 4 511 = entrySet ⟨4⟩ (PRESENT ||| WRITABLE) := e2
    have e3' : pointed_frame (st'.mem 4 511) = some ⟨4⟩ := e3 (by decide)
    have e4a : st'.mem 4 0 = 0 := e4 0 (by decide)
    have e4b : st'.mem 4 510 = 0 := e4 510 (by decide)
    simp only [Option.map_some']
    rw [e1, e3', e2', e4a, e4b]


theorem sectionsFold_filter (c : Nat) (ss : List ElfSection) :
    ∀ (m : Mem) (al : List Nat),
      sectionsFold c m al ss
        = sectionsFold c m al (ss.filter (fun s => s.allocated)) := by
  induction ss with
  | nil => intro m al; rfl
  | cons s rest ih =>
    intro m al
    by_cases hs : s.allocated
    · rw [List.filter_cons_of_pos (by simpa using hs)]
      simp only [sectionsFold]
      rcases hp : processSection c m al s with _ | ⟨m', al'⟩
      · rfl
      · exact ih m' al'
    · rw [List.filter_cons_of_neg (by simpa using hs)]
      simp only [sectionsFold]
      have hp : processSection c m al s = some (m, al) := by
        unfold processSection
        rw [if_neg hs]
      simp only [hp]
      exact ih m al

/-- Claim C2: on boot info with the single allocated section
`{addr = 0x100000, size = 0x3000}` and a seven-frame allocator,
`remap_the_kernel` stages a table that translates `0x100000`, `0x101000`
and `0x102000` to themselves and leaves `0x103000` unmapped; and
sections whose allocated flag is unset contribute no mappings at all:
any boot info gives the same result as its allocated-only filtering. -/
theorem c2_remap_scenario :
    ((remap_the_kernel st0 [1, 2, 3, 4, 5, 6, 7] bi0).map (fun r =>
        (translate r.1.mem r.2.number 0x100000,
         translate r.1.mem r.2.number 0x101000,
         translate r.1.mem r.2.number 0x102000,
         translate r.1.mem r.2.number 0x103000)))
      = some (some 0x100000, some 0x101000, some 0x102000, none)
    ∧ (∀ (st : State) (al : List Nat) (bi : BootInfo),
        remap_the_kernel st al bi
          = remap_the_kernel st al ⟨bi.sections.filter (fun s => s.allocated)⟩) := by
  refine ⟨rfl, ?_⟩
  intro st al bi
  simp only [remap_the_kernel]
  cases hd : (TemporaryPage.new ⟨0xcafebabe⟩ al).2 with
  | nil => rfl
  | cons fr al2 =>
    dsimp only
    cases hn : InactivePageTable.new ⟨fr⟩ st (TemporaryPage.new ⟨0xcafebabe⟩ al).1 with
    | none => rfl
    | some res =>
      obtain ⟨nt, st1, tp1⟩ := res
      dsimp only
      have hf : (fun m => sectionsFold (Frame.containing_address st1.cr3).number
            m al2 bi.sections)
          = (fun m => sectionsFold (Frame.containing_address st1.cr3).number
            m al2 (List.filter (fun s => s.allocated) bi.sections)) := by
        funext m
        exact sectionsFold_filter _ _ m al2
      rw [hf]


/-- Claim C4: for every frame with a canonical (and physically valid)
start address, after `identity_map(f, flags, allocator)` succeeds —
performing the walk through the intermediate table frames `p3`, `p2`,
`p1`, with low-bit flags, physically valid allocator frames and an
aliasing-free walk, as the external frame allocator guarantees —
`translate(f.start_address())` returns `Some(f.start_address())`. -/
theorem c4_identity_map_translate (m : Mem) (r : Nat) (f : Frame) (flags : Nat)
    (al : List Nat) (m' : Mem) (al' : List Nat) (p3 p2 p1 : Nat)
    (hf : f.number < 0x800000000) (hflags : flags < 4096)
    (hal : ∀ x ∈ al, x < 0x10000000000)
    (h : identityMapAux m r f flags al = some (m', al', p3, p2, p1))
    (h13 : r ≠ p3) (h12 : r ≠ p2) (h11 : r ≠ p1)
    (h32 : p3 ≠ p2) (h31 : p3 ≠ p1) (h21 : p2 ≠ p1) :
    translate m' r f.start_address = some f.start_address := by
  have hstart : f.start_address = f.number * 4096 := by
    unfold Frame.start_address PAGE_SIZE USIZE
    omega
  have hpage : Page.containing_address f.start_address = some ⟨f.number⟩ := by
    unfold Page.containing_address
    rw [hstart, if_pos (Or.inl (by omega))]
    have hdiv : f.number * 4096 / PAGE_SIZE = f.number := by
      unfold PAGE_SIZE
      omega
    rw [hdiv]
  unfold identityMapAux at h
  simp only [hpage] at h
  unfold mapToAux at h
  rcases hA : next_table_create m r (Page.p4_index ⟨f.number⟩) al
      with _ | ⟨c3, m1, al1⟩
  · simp only [hA] at h
    exact Option.noConfusion h
  simp only [hA] at h
  rcases hB : next_table_create m1 c3 (Page.p3_index ⟨f.number⟩) al1
      with _ | ⟨c2, m2, al2⟩
  · simp only [hB] at h
    exact Option.noConfusion h
  simp only [hB] at h
  rcases hC : next_table_create m2 c2 (Page.p2_index ⟨f.number⟩) al2
      with _ | ⟨c1, m3, al3⟩
  · simp only [hC] at h
    exact Option.noConfusion h
  simp only [hC, Option.some.injEq, Prod.mk.injEq] at h
  obtain ⟨hm', hal3, hc3, hc2, hc1⟩ := h
  subst hc3
  subst hc2
  subst hc1
  subst hm'
  have hal1 : ∀ x ∈ al1, x < 0x10000000000 :=
    fun x hx => hal x (ntc_al_sub _ _ _ _ _ _ _ hA x hx)
  have hal2 : ∀ x ∈ al2, x < 0x10000000000 :=
    fun x hx => hal1 x (ntc_al_sub _ _ _ _ _ _ _ hB x hx)
  have R1 : pointed_frame (memWrite m3 c1 (Page.p1_index ⟨f.number⟩)
        (entrySet f (flags ||| PRESENT)) r (Page.p4_index ⟨f.number⟩))
      = some ⟨c3⟩ := by
    rw [memWrite_frame_ne _ _ _ _ _ _ h11,
      ntc_untouched _ _ _ _ _ _ _ hC r _ h12 h11,
      ntc_untouched _ _ _ _ _ _ _ hB r _ h13 h12]
    exact ntc_pointed _ _ _ _ _ _ _ hA h13 hal
  have R2 : pointed_frame (memWrite m3 c1 (Page.p1_index ⟨f.number⟩)
        (entrySet f (flags ||| PRESENT)) c3 (Page.p3_index ⟨f.number⟩))
      = some ⟨c2⟩ := by
    rw [memWrite_frame_ne _ _ _ _ _ _ h31,
      ntc_untouched _ _ _ _ _ _ _ hC c3 _ h32 h31]
    exact ntc_pointed _ _ _ _ _ _ _ hB h32 hal1
  have R3 : pointed_frame (memWrite m3 c1 (Page.p1_index ⟨f.number⟩)
        (entrySet f (flags ||| PRESENT)) c2 (Page.p2_index ⟨f.number⟩))
      = some ⟨c1⟩ := by
    rw [memWrite_frame_ne _ _ _ _ _ _ h21]
    exact ntc_pointed _ _ _ _ _ _ _ hC h21 hal2
  have hfl1 : (flags ||| PRESENT).testBit 0 = true := by
    rw [Nat.testBit_lor]
    have hp : PRESENT.testBit 0 = true := by decide
    rw [hp, Bool.or_true]
  have hfl2 : flags ||| PRESENT < 4096 := by
    have h4096 : (4096 : Nat) = 2 ^ 12 := by norm_num
    have hp : PRESENT < 2 ^ 12 := by decide
    rw [h4096]
    exact Nat.or_lt_two_pow (h4096 ▸ hflags) hp
  have R4 : pointed_frame (memWrite m3 c1 (Page.p1_index ⟨f.number⟩)
        (entrySet f (flags ||| PRESENT)) c1 (Page.p1_index ⟨f.number⟩))
      = some f := by
    rw [memWrite_same]
    exact pointed_entrySet f (flags ||| PRESENT) hfl1 hfl2 (by omega)
  unfold translate
  simp only [hpage]
  unfold translate_page next_table
  simp only [R1, R2, R3, R4, Option.map_some']
  have hmod : f.start_address % PAGE_SIZE = 0 := by
    rw [hstart]
    unfold PAGE_SIZE
    omega
  rw [hmod, Nat.add_zero]

/-- Witness for C4: identity-mapping frame `⟨0x100⟩` into an empty arena
rooted at frame 100 with allocator `[101, 102, 103]` creates the walk
`101, 102, 103` and afterwards `translate` maps `0x100000` to itself. -/
theorem c4_witness :
    identityMapAux memEmpty 100 ⟨0x100⟩ WRITABLE [101, 102, 103]
      = some (c4mem, [], 101, 102, 103)
    ∧ translate c4mem 100 0x100000 = some 0x100000 := by
  have h : identityMapAux memEmpty 100 ⟨0x100⟩ WRITABLE [101, 102, 103]
      = some (c4mem, [], 101, 102, 103) := rfl
  refine ⟨h, ?_⟩
  exact c4_identity_map_translate memEmpty 100 ⟨0x100⟩ WRITABLE [101, 102, 103]
    c4mem [] 101 102 103 (by decide) (by decide) (by decide) h
    (by decide) (by decide) (by decide) (by decide) (by decide) (by decide)

end Thermite
